import Mathlib

/-!
Verification of the genai-telemetry export subsystem.

This file gives a shallow embedding, in Lean 4, of the parts of the
`genai_telemetry` Python package that the specification's testable
properties talk about: the span record data model (`core/span.py`),
the telemetry facade (`core/telemetry.py`), the exporter contract
(`exporters/base.py`), the batching exporters (`exporters/splunk.py`,
`exporters/otlp.py`), the Elasticsearch exporter
(`exporters/elasticsearch.py`), the fan-out combinator
(`exporters/multi.py`), the file exporter (`exporters/file.py`) and the
setup-time exporter factory (`_create_exporter`).

Python values appearing in span records are modelled by the inductive
type `Value` (None, bool, int, str); Python floats only occur in the
records at places where no claim depends on more than presence /
equality with zero, so they are represented by their integer-valued
embedding.  A Python dict is modelled as an association list with the
dict's insertion-order semantics: assignment (`rset`) overwrites the
value in place when the key exists and appends otherwise.  Network I/O
is abstracted by passing in the boolean outcome the underlying HTTP
send would produce, and by recording, as an explicit trace, the
batches handed to the send routine.
-/

/-- A Python value as it occurs in span-record dicts. -/
inductive Value where
  | none
  | vbool (b : Bool)
  | vint (n : Int)
  | vstr (s : String)
deriving DecidableEq, Repr

/-- A span record: a Python dict from field name to value, modelled as an
insertion-ordered association list with unique keys. -/
abbrev Record := List (String × Value)

/-- Dict read: `d.get(k)` / `d[k]`, first binding of `k`. -/
def rlookup (r : Record) (k : String) : Option Value :=
  List.lookup k r

/-- Dict assignment `d[k] = v`: overwrite in place when the key exists
(keeping its position, as Python dicts do), append otherwise. -/
def rset (r : Record) (k : String) (v : Value) : Record :=
  if (rlookup r k).isSome then
    r.map (fun p => if p.1 = k then (k, v) else p)
  else
    r ++ [(k, v)]

/-- The key list of a record, in insertion order. -/
def rkeys (r : Record) : List String :=
  r.map Prod.fst

/-- Python truthiness of a value (`bool(v)`), used by `x or y` chains and
`if not x` tests in the setup code. -/
def truthy (v : Value) : Bool :=
  match v with
  | .none => false
  | .vbool b => b
  | .vint n => n != 0
  | .vstr s => s != ""

/-- Python equality of a record value with `0` (`v == 0` is also true for
`False` and `0.0`). -/
def pyEqZero (v : Value) : Bool :=
  match v with
  | .vint n => n == 0
  | .vbool b => !b
  | _ => false

/-- Python equality of a record value with `""`. -/
def pyEqEmptyStr (v : Value) : Bool :=
  match v with
  | .vstr s => s == ""
  | _ => false

-- ---------------------------------------------------------------------------
-- exporters/multi.py — MultiExporter
-- ---------------------------------------------------------------------------

/-- Outcome of calling one member exporter's `export`: either a returned
boolean, or a raised exception (with its message). -/
inductive ExpOutcome where
  | ok (b : Bool)
  | exc (msg : String)
deriving DecidableEq, Repr

/-- `MultiExporter.export` body, results list: for each member exporter the
returned boolean, with a raised exception caught, logged and recorded
as `False` (`except ... results.append(False)`). -/
def multiExportResults (exporters : List (Record → ExpOutcome)) (span_data : Record) :
    List Bool :=
  exporters.map (fun exp =>
    match exp span_data with
    | .ok b => b
    | .exc _ => false)

/-- `MultiExporter.export`: `return any(results)`. -/
def multiExport (exporters : List (Record → ExpOutcome)) (span_data : Record) : Bool :=
  (multiExportResults exporters span_data).any id

-- ---------------------------------------------------------------------------
-- exporters/base.py — BaseExporter.export_batch
-- ---------------------------------------------------------------------------

/-- `BaseExporter.export_batch`:
`return all(self.export(span) for span in spans)`.
A member exporter is a stateful function `σ → Record → σ × Bool`;
Python's `all` consumes the generator lazily, so evaluation stops at
the first `False`. -/
def export_batch {σ : Type} (exportFn : σ → Record → σ × Bool) :
    σ → List Record → σ × Bool
  | s, [] => (s, true)
  | s, span :: spans =>
    let r := exportFn s span
    if r.2 then export_batch exportFn r.1 spans else (r.1, false)

/-- The records actually passed to `export` by `export_batch`, in order
(the generator is abandoned after the first failing call). -/
def export_batch_calls {σ : Type} (exportFn : σ → Record → σ × Bool) :
    σ → List Record → List Record
  | _, [] => []
  | s, span :: spans =>
    let r := exportFn s span
    if r.2 then span :: export_batch_calls exportFn r.1 spans else [span]

/-- Reference full run: the individual result of `export` on every record
of the list, sequentially, with no short-circuiting. -/
def runAllResults {σ : Type} (exportFn : σ → Record → σ × Bool) :
    σ → List Record → List Bool
  | _, [] => []
  | s, span :: spans =>
    let r := exportFn s span
    r.2 :: runAllResults exportFn r.1 spans

-- ---------------------------------------------------------------------------
-- exporters/splunk.py and exporters/otlp.py — batching export
-- ---------------------------------------------------------------------------

/-- Result of one `export` call on a batching exporter: the new pending
queue (`self._batch`), the returned boolean, and the batches handed to
`_send_batch` during the call (the network trace). -/
structure ExportStep where
  queue : List Record
  result : Bool
  sends : List (List Record)
deriving DecidableEq, Repr

/-- `SplunkHECExporter.export` (single-threaded semantics).  `sendOk`
abstracts the boolean the underlying HTTP `_send` would return.  With
`batch_size <= 1` the record is sent immediately and the send's result
returned; otherwise the record is appended to the queue, a flush fires
when the queue length reaches `batch_size` (swapping in an empty
queue and sending the captured batch, the send's result discarded by
`flush`), and `True` is returned unconditionally. -/
def splunkExport (batch_size : Nat) (sendOk : Bool) (queue : List Record)
    (span_data : Record) : ExportStep :=
  if batch_size ≤ 1 then
    { queue := queue, result := sendOk, sends := [[span_data]] }
  else
    let queue' := queue ++ [span_data]
    if batch_size ≤ queue'.length then
      { queue := [], result := true, sends := [queue'] }
    else
      { queue := queue', result := true, sends := [] }

/-- `OTLPExporter.export`: same enqueue / size-triggered-flush /
unconditional-`True` structure as the Splunk exporter. -/
def otlpExport (batch_size : Nat) (sendOk : Bool) (queue : List Record)
    (span_data : Record) : ExportStep :=
  if batch_size ≤ 1 then
    { queue := queue, result := sendOk, sends := [[span_data]] }
  else
    let queue' := queue ++ [span_data]
    if batch_size ≤ queue'.length then
      { queue := [], result := true, sends := [queue'] }
    else
      { queue := queue', result := true, sends := [] }

/-- The HEC event wrapper built by `SplunkHECExporter._send_batch` for each
span of a batch. -/
structure SplunkEvent where
  index : String
  sourcetype : String
  source : String
  event : Record
deriving DecidableEq, Repr

/-- `SplunkHECExporter._send_batch` payload construction: each span is
wrapped as `{index, sourcetype, source, event: span}`. -/
def splunkWrapBatch (index sourcetype : String) (batch : List Record) :
    List SplunkEvent :=
  batch.map (fun span =>
    { index := index, sourcetype := sourcetype, source := "genai-telemetry",
      event := span })

/-- Sequential `export` calls on a batching exporter, starting from a given
queue: final queue and the concatenated network trace. -/
def splunkRun (batch_size : Nat) (sendOk : Bool) :
    List Record → List Record → List Record × List (List Record)
  | queue, [] => (queue, [])
  | queue, r :: rs =>
    let step := splunkExport batch_size sendOk queue r
    let rest := splunkRun batch_size sendOk step.queue rs
    (rest.1, step.sends ++ rest.2)

-- ---------------------------------------------------------------------------
-- exporters/elasticsearch.py — round-robin host selection, export mutation
-- ---------------------------------------------------------------------------

/-- Python `host.rstrip("/")`: remove every trailing `/`. -/
def rstripSlash (s : String) : String :=
  String.mk ((s.data.reverse.dropWhile (fun c => c = '/')).reverse)

/-- `ElasticsearchExporter._get_host`: returns
`self.hosts[self._host_index % len(self.hosts)].rstrip("/")` and
increments `self._host_index`. -/
def esGetHost (hosts : List String) (host_index : Nat) : String × Nat :=
  (rstripSlash (hosts.getD (host_index % hosts.length) ""), host_index + 1)

/-- The `_host_index` state after `k` successive `_get_host` calls,
starting from the constructor's initial `0`. -/
def esIndexAfter (hosts : List String) : Nat → Nat
  | 0 => 0
  | k + 1 => (esGetHost hosts (esIndexAfter hosts k)).2

/-- The host string returned by the `k`-th successive `_get_host` call
(counting from 0). -/
def esHostAt (hosts : List String) (k : Nat) : String :=
  (esGetHost hosts (esIndexAfter hosts k)).1

/-- `ElasticsearchExporter.export`, record-mutation part: the handed-in
dict gets an `"@timestamp"` entry (copied from `"timestamp"`, or the
current time `now`) assigned into it when the key is absent.  The
function returns the record as it is after the call. -/
def esExportRecord (now : String) (span_data : Record) : Record :=
  if (rlookup span_data "@timestamp").isSome then
    span_data
  else
    rset span_data "@timestamp" ((rlookup span_data "timestamp").getD (.vstr now))

-- ---------------------------------------------------------------------------
-- core/telemetry.py — _create_exporter (setup-time factory)
-- ---------------------------------------------------------------------------

/-- The config dict handed to `_create_exporter`, as a partial map from
option name to value (`config.get(k)`). -/
abbrev Config := String → Option Value

/-- Python `x or y` on two optional config values: keeps `x` when truthy,
else yields `y`. -/
def pyOr (x y : Option Value) : Option Value :=
  match x with
  | some v => if truthy v then some v else y
  | Option.none => y

/-- Python `not x` on an optional config value. -/
def pyNot (x : Option Value) : Bool :=
  match x with
  | some v => !truthy v
  | Option.none => true

/-- Python `s.lower()` (`str.lower` of the stdlib), character-wise
lowercasing. -/
def pyLower (s : String) : String :=
  String.mk (s.data.map Char.toLower)

/-- The string content of a config value (used once a value passed the
truthiness check, where it is a non-empty string). -/
def strOf (x : Option Value) : String :=
  match x with
  | some (.vstr s) => s
  | _ => ""

/-- The exporter instance built by `_create_exporter`, reduced to the kind
tag and the connection parameters each constructor receives. -/
inductive ExporterSpec where
  | splunk (hec_url hec_token index : String)
  | elasticsearch (index : String)
  | otlp (endpoint : String)
  | datadog (api_key site : String)
  | prometheus (pushgateway_url : String)
  | loki (url : String)
  | cloudwatch (log_group region : String)
  | file (path : String)
  | console
deriving DecidableEq, Repr

/-- `_create_exporter(exporter_type, config)`: lowercases the kind string,
dispatches on it, validates required credentials (Splunk URL/token,
Datadog API key) and raises `ValueError` (modelled as `Except.error`,
so no exporter is ever constructed on that path) for a missing
credential or an unknown kind string. -/
def createExporter (exporter_type : String) (config : Config) :
    Except String ExporterSpec :=
  let t := pyLower exporter_type
  if t = "splunk" then
    let url := pyOr (config "splunk_url") (config "url")
    let token := pyOr (config "splunk_token") (config "token")
    if pyNot url || pyNot token then
      Except.error "Splunk requires splunk_url and splunk_token"
    else
      Except.ok (.splunk (strOf url) (strOf token)
        (strOf (pyOr (config "splunk_index") (config "index"))))
  else if t = "elasticsearch" ∨ t = "es" ∨ t = "elastic" then
    Except.ok (.elasticsearch (strOf (pyOr (config "es_index") (config "index"))))
  else if t = "otlp" ∨ t = "opentelemetry" ∨ t = "otel" then
    Except.ok (.otlp (strOf (pyOr (config "otlp_endpoint") (config "endpoint"))))
  else if t = "datadog" then
    let api_key := pyOr (config "datadog_api_key") (config "api_key")
    if pyNot api_key then
      Except.error "Datadog requires datadog_api_key"
    else
      Except.ok (.datadog (strOf api_key)
        (strOf (pyOr (config "datadog_site") (config "site"))))
  else if t = "prometheus" then
    Except.ok (.prometheus (strOf (pyOr (config "prometheus_gateway") (config "gateway"))))
  else if t = "loki" then
    Except.ok (.loki (strOf (pyOr (config "loki_url") (config "url"))))
  else if t = "cloudwatch" ∨ t = "aws" then
    Except.ok (.cloudwatch (strOf (pyOr (config "cloudwatch_log_group") (config "log_group")))
      (strOf (pyOr (config "cloudwatch_region") (config "region"))))
  else if t = "file" then
    Except.ok (.file (strOf (pyOr (config "file_path") (config "path"))))
  else if t = "console" then
    Except.ok .console
  else
    Except.error ("Unknown exporter type: " ++ t)

/-- The kind strings `_create_exporter` recognizes. -/
def recognizedKinds : List String :=
  ["splunk", "elasticsearch", "es", "elastic", "otlp", "opentelemetry", "otel",
   "datadog", "prometheus", "loki", "cloudwatch", "aws", "file", "console"]

-- ---------------------------------------------------------------------------
-- core/span.py — Span and Span.to_dict
-- ---------------------------------------------------------------------------

/-- A Python exception as the span machinery sees it: its class name
(`type(e).__name__`) and its message (`str(e)`). -/
structure PyExc where
  ty : String
  msg : String
deriving DecidableEq, Repr

/-- The `Span` object.  `timestamp_iso` stands for the stdlib-computed
`datetime.fromtimestamp(self.start_time, tz=timezone.utc).isoformat()`
string (the formatting itself is Python stdlib, not repository code);
floats (`duration_ms`, `temperature`, `relevance_score`) are carried
at their integer-valued embedding. -/
structure Span where
  trace_id : String
  span_id : String
  name : String
  span_type : String
  workflow_name : Option String
  parent_span_id : Option String
  timestamp_iso : String
  duration_ms : Option Int
  status : String
  is_error : Int
  error_message : Option String
  error_type : Option String
  model_name : Option String
  model_provider : Option String
  input_tokens : Int
  output_tokens : Int
  temperature : Option Int
  max_tokens : Option Int
  embedding_model : Option String
  embedding_dimensions : Option Int
  vector_store : Option String
  documents_retrieved : Int
  relevance_score : Option Int
  tool_name : Option String
  agent_name : Option String
  agent_type : Option String
  attributes : Record
deriving DecidableEq, Repr

/-- `Span.__init__` with no keyword extras: every optional field takes its
constructor default (`None`, token counts `0`, `status="OK"`,
`is_error=0`, empty attribute dict). -/
def Span.init (trace_id span_id name span_type : String)
    (workflow_name parent_span_id : Option String) (timestamp_iso : String) : Span :=
  { trace_id := trace_id, span_id := span_id, name := name, span_type := span_type,
    workflow_name := workflow_name, parent_span_id := parent_span_id,
    timestamp_iso := timestamp_iso, duration_ms := Option.none, status := "OK",
    is_error := 0, error_message := Option.none, error_type := Option.none,
    model_name := Option.none, model_provider := Option.none,
    input_tokens := 0, output_tokens := 0, temperature := Option.none,
    max_tokens := Option.none, embedding_model := Option.none,
    embedding_dimensions := Option.none, vector_store := Option.none,
    documents_retrieved := 0, relevance_score := Option.none,
    tool_name := Option.none, agent_name := Option.none, agent_type := Option.none,
    attributes := [] }

/-- `Span.set_error(error)`. -/
def Span.set_error (s : Span) (e : PyExc) : Span :=
  { s with
    status := "ERROR"
    is_error := 1
    error_message := some e.msg
    error_type := some e.ty }

/-- `Span.finish(error=None)`: the duration is computed from the clock
(passed in here as `dur`), then the error, when given, is recorded. -/
def Span.finish (s : Span) (dur : Int) (e : Option PyExc) : Span :=
  let s1 : Span := { s with duration_ms := some dur }
  match e with
  | some err => s1.set_error err
  | Option.none => s1

/-- An `Option String` field's value as the Python value `to_dict` reads. -/
def optStr (o : Option String) : Value :=
  match o with
  | some s => .vstr s
  | Option.none => .none

/-- An `Option Int` field's value as the Python value `to_dict` reads. -/
def optInt (o : Option Int) : Value :=
  match o with
  | some n => .vint n
  | Option.none => .none

/-- The filter `to_dict` applies to each optional field:
`value is not None and value != "" and value != 0`. -/
def includeVal (v : Value) : Bool :=
  v != Value.none && !pyEqEmptyStr v && !pyEqZero v

/-- The `optional_fields` list of `Span.to_dict`, paired with each field's
current value. -/
def Span.optionalFields (s : Span) : List (String × Value) :=
  [("workflow_name", optStr s.workflow_name),
   ("parent_span_id", optStr s.parent_span_id),
   ("error_message", optStr s.error_message),
   ("error_type", optStr s.error_type),
   ("model_name", optStr s.model_name),
   ("model_provider", optStr s.model_provider),
   ("input_tokens", .vint s.input_tokens),
   ("output_tokens", .vint s.output_tokens),
   ("temperature", optInt s.temperature),
   ("max_tokens", optInt s.max_tokens),
   ("embedding_model", optStr s.embedding_model),
   ("embedding_dimensions", optInt s.embedding_dimensions),
   ("vector_store", optStr s.vector_store),
   ("documents_retrieved", .vint s.documents_retrieved),
   ("relevance_score", optInt s.relevance_score),
   ("tool_name", optStr s.tool_name),
   ("agent_name", optStr s.agent_name),
   ("agent_type", optStr s.agent_type)]

/-- The eight unconditional entries of `Span.to_dict`
(`self.duration_ms or 0` maps a missing or zero duration to `0`). -/
def Span.baseDict (s : Span) : Record :=
  [("trace_id", .vstr s.trace_id),
   ("span_id", .vstr s.span_id),
   ("name", .vstr s.name),
   ("span_type", .vstr s.span_type),
   ("timestamp", .vstr s.timestamp_iso),
   ("duration_ms", .vint (match s.duration_ms with
     | some d => d
     | Option.none => 0)),
   ("status", .vstr s.status),
   ("is_error", .vint s.is_error)]

/-- One step of the optional-field loop of `Span.to_dict`:
`if value is not None and value != "" and value != 0: data[field] = value`. -/
def setIfIncluded (d : Record) (kv : String × Value) : Record :=
  if includeVal kv.2 then rset d kv.1 kv.2 else d

/-- `data.update(attrs)`: assign every binding of `attrs` into `data`. -/
def updateAll (d : Record) (attrs : Record) : Record :=
  attrs.foldl (fun d kv => rset d kv.1 kv.2) d

/-- `Span.to_dict`: the base dict, then each optional field assigned when
its value is neither `None` nor `""` nor `0`, then — for LLM spans —
`input_tokens` / `output_tokens` forced in (`self.input_tokens or 0`),
then `data.update(self.attributes)`. -/
def Span.to_dict (s : Span) : Record :=
  let data := s.baseDict
  let data := s.optionalFields.foldl setIfIncluded data
  let data :=
    if s.span_type = "LLM" then
      rset (rset data "input_tokens" (.vint s.input_tokens))
        "output_tokens" (.vint s.output_tokens)
    else data
  if s.attributes.isEmpty then data
  else updateAll data s.attributes

/-- The eight field names the §3 invariant says are always present. -/
def alwaysKeys : List String :=
  ["trace_id", "span_id", "name", "span_type", "timestamp", "duration_ms",
   "status", "is_error"]

-- ---------------------------------------------------------------------------
-- core/telemetry.py — GenAITelemetry.start_span (exception path)
-- ---------------------------------------------------------------------------

/-- The telemetry facade state visible to `start_span`: the workflow name,
the thread's current trace id, the thread-local span stack (top at the
end, as a Python list used with `append`/`pop`/`[-1]`), and the trace
of records handed to `self.exporter.export`, in call order. -/
structure TState where
  workflow_name : String
  trace_id : String
  span_stack : List Span
  exported : List Record
deriving DecidableEq, Repr

/-- `GenAITelemetry.start_span` when the wrapped body raises exception `e`
(single-threaded semantics).  `span_id` stands for the generated
`uuid.uuid4().hex[:16]`, `ts` for the start timestamp, `dur` for the
clock-derived duration.  Steps mirror the source: compute the parent id
from the top of the stack, build the span, push it, run the body (which
raises `e`), `span.finish(error=e)` in the `except` arm, then in the
`finally` arm pop the stack and export `span.to_dict()`; the exception
is re-raised unchanged (the second component of the result). -/
def startSpanRaising (st : TState) (name span_type : String)
    (span_id ts : String) (dur : Int) (e : PyExc) : TState × PyExc :=
  let parent_id := (st.span_stack.getLast?).map Span.span_id
  let span := Span.init st.trace_id span_id name span_type
    (some st.workflow_name) parent_id ts
  let stack1 := st.span_stack ++ [span]
  let span1 := span.finish dur (some e)
  let stack2 := stack1.dropLast
  ({ st with
     span_stack := stack2
     exported := st.exported ++ [span1.to_dict] }, e)

-- ---------------------------------------------------------------------------
-- exporters/file.py — FileExporter and the JSON line format
-- ---------------------------------------------------------------------------

/-- One hex digit, lowercase (as Python's `\uXXXX` escapes emit). -/
def hexDigit (n : Nat) : Char :=
  if n < 10 then Char.ofNat (48 + n) else Char.ofNat (87 + n)

/-- `json.dumps` encoding of one character inside a string literal:
`"` and `\` are escaped, the control characters use the two-character
escapes `\b \t \n \f \r` or the generic `\u00XX` form, everything else
is emitted as itself.  (CPython with `ensure_ascii` also `\uXXXX`-escapes
non-ASCII characters; emitting them raw is the equivalent wire choice of
`ensure_ascii=False` and parses to the same value.) -/
def encChar (c : Char) : List Char :=
  if c = '"' then ['\\', '"']
  else if c = '\\' then ['\\', '\\']
  else if c = Char.ofNat 8 then ['\\', 'b']
  else if c = Char.ofNat 9 then ['\\', 't']
  else if c = Char.ofNat 10 then ['\\', 'n']
  else if c = Char.ofNat 12 then ['\\', 'f']
  else if c = Char.ofNat 13 then ['\\', 'r']
  else if c.toNat < 32 then
    ['\\', 'u', '0', '0', hexDigit (c.toNat / 16), hexDigit (c.toNat % 16)]
  else [c]

/-- `json.dumps` encoding of a string (the surrounding quotes included). -/
def encString (s : String) : List Char :=
  '"' :: (s.data.flatMap encChar) ++ ['"']

/-- Decimal digits of a natural number, most significant first. -/
def natDec (n : Nat) : List Char :=
  if h : n < 10 then [Char.ofNat (48 + n)]
  else natDec (n / 10) ++ [Char.ofNat (48 + n % 10)]
decreasing_by exact Nat.div_lt_self (by omega) (by omega)

/-- `json.dumps` encoding of an integer (Python `int` repr). -/
def encInt (n : Int) : List Char :=
  if n < 0 then '-' :: natDec n.natAbs else natDec n.natAbs

/-- `json.dumps` encoding of one record value. -/
def encValue (v : Value) : List Char :=
  match v with
  | .none => ['n', 'u', 'l', 'l']
  | .vbool true => ['t', 'r', 'u', 'e']
  | .vbool false => ['f', 'a', 'l', 's', 'e']
  | .vint n => encInt n
  | .vstr s => encString s

/-- The `", "`-joined `"key": value` member list of `json.dumps(record)`
(CPython's default separators: `", "` between members, `": "` after
each key). -/
def encPairs : List (String × Value) → List Char
  | [] => []
  | [kv] => encString kv.1 ++ ':' :: ' ' :: encValue kv.2
  | kv :: rest =>
    encString kv.1 ++ (':' :: ' ' :: (encValue kv.2 ++ (',' :: ' ' :: encPairs rest)))

/-- `json.dumps(record)`: the member list wrapped in braces. -/
def encRecord (r : Record) : List Char :=
  '{' :: encPairs r ++ ['}']

/-- The JSON line `FileExporter.export` appends for a record. -/
def jsonDumps (r : Record) : String :=
  String.mk (encRecord r)

/-- `FileExporter.export` on the current file, modelled as its list of
complete lines: one JSON line is appended (the trailing `"\n"` the
source writes is the line terminator of this model). -/
def fileExportLines (lines : List String) (span_data : Record) : List String :=
  lines ++ [jsonDumps span_data]

/-- JSON whitespace, as `json.loads` skips it. -/
def isJsonWs (c : Char) : Bool :=
  c = ' ' || c = '\t' || c = '\n' || c = '\r'

/-- Skip insignificant whitespace. -/
def dropSpaces (cs : List Char) : List Char :=
  cs.dropWhile isJsonWs

/-- Decimal-digit test on a character. -/
def isDigitChar (c : Char) : Bool :=
  48 ≤ c.toNat && c.toNat ≤ 57

/-- Whether the input starts with a decimal digit. -/
def headIsDigit (cs : List Char) : Bool :=
  match cs with
  | c :: _ => isDigitChar c
  | [] => false

/-- Value of one hex digit. -/
def hexVal (c : Char) : Option Nat :=
  if 48 ≤ c.toNat ∧ c.toNat ≤ 57 then some (c.toNat - 48)
  else if 97 ≤ c.toNat ∧ c.toNat ≤ 102 then some (c.toNat - 87)
  else if 65 ≤ c.toNat ∧ c.toNat ≤ 70 then some (c.toNat - 55)
  else Option.none

/-- Value of a `\uXXXX` escape's four hex digits. -/
def hex4 (a b c d : Char) : Option Nat :=
  match hexVal a, hexVal b, hexVal c, hexVal d with
  | some x, some y, some z, some w => some (((x * 16 + y) * 16 + z) * 16 + w)
  | _, _, _, _ => Option.none

/-- Decode of a single-character JSON string escape. -/
def escDecode (c : Char) : Option Char :=
  if c = '"' then some '"'
  else if c = '\\' then some '\\'
  else if c = '/' then some '/'
  else if c = 'b' then some (Char.ofNat 8)
  else if c = 't' then some (Char.ofNat 9)
  else if c = 'n' then some (Char.ofNat 10)
  else if c = 'f' then some (Char.ofNat 12)
  else if c = 'r' then some (Char.ofNat 13)
  else Option.none

/-- JSON string-body parsing (the opening quote already consumed): the
decoded characters up to the closing quote, and the remaining input.
`fuel` decreases once per decoded character; any
`fuel > number of decoded characters` is sufficient. -/
def parseStrAux : Nat → List Char → Option (List Char × List Char)
  | 0, _ => Option.none
  | _ + 1, [] => Option.none
  | fuel + 1, c :: rest =>
    if c = '"' then some ([], rest)
    else if c = '\\' then
      match rest with
      | [] => Option.none
      | e :: rest2 =>
        if e = 'u' then
          match rest2 with
          | h1 :: h2 :: h3 :: h4 :: rest3 =>
            match hex4 h1 h2 h3 h4 with
            | some n =>
              match parseStrAux fuel rest3 with
              | some p => some (Char.ofNat n :: p.1, p.2)
              | Option.none => Option.none
            | Option.none => Option.none
          | _ => Option.none
        else
          match escDecode e with
          | some d =>
            match parseStrAux fuel rest2 with
            | some p => some (d :: p.1, p.2)
            | Option.none => Option.none
          | Option.none => Option.none
    else
      match parseStrAux fuel rest with
      | some p => some (c :: p.1, p.2)
      | Option.none => Option.none

/-- Decimal-digit run parsing with an accumulator. -/
def parseDigits : Nat → List Char → Nat × List Char
  | acc, [] => (acc, [])
  | acc, c :: rest =>
    if isDigitChar c then parseDigits (acc * 10 + (c.toNat - 48)) rest
    else (acc, c :: rest)

/-- Parsing of one JSON scalar value (null / bool / int / string), the
fragment `json.dumps` emits for the record values of this model. -/
def parseValue (fuel : Nat) (cs : List Char) : Option (Value × List Char) :=
  match cs with
  | [] => Option.none
  | c :: rest =>
    if c = '"' then
      match parseStrAux fuel rest with
      | some p => some (.vstr (String.mk p.1), p.2)
      | Option.none => Option.none
    else if c = 'n' then
      match rest with
      | 'u' :: 'l' :: 'l' :: r => some (.none, r)
      | _ => Option.none
    else if c = 't' then
      match rest with
      | 'r' :: 'u' :: 'e' :: r => some (.vbool true, r)
      | _ => Option.none
    else if c = 'f' then
      match rest with
      | 'a' :: 'l' :: 's' :: 'e' :: r => some (.vbool false, r)
      | _ => Option.none
    else if c = '-' then
      if headIsDigit rest then
        let p := parseDigits 0 rest
        some (.vint (-(p.1 : Int)), p.2)
      else Option.none
    else if isDigitChar c then
      let p := parseDigits 0 (c :: rest)
      some (.vint ((p.1 : Nat) : Int), p.2)
    else Option.none

/-- Parsing of the non-empty `"key": value` member list of a JSON object.
`fuel` decreases once per member. -/
def parsePairs : Nat → List Char → Option (List (String × Value) × List Char)
  | 0, _ => Option.none
  | fuel + 1, cs =>
    match cs with
    | '"' :: cs1 =>
      match parseStrAux (fuel + 1) cs1 with
      | some kp =>
        match dropSpaces kp.2 with
        | ':' :: cs3 =>
          match parseValue (fuel + 1) (dropSpaces cs3) with
          | some vp =>
            match dropSpaces vp.2 with
            | ',' :: cs5 =>
              match parsePairs fuel (dropSpaces cs5) with
              | some pp => some ((String.mk kp.1, vp.1) :: pp.1, pp.2)
              | Option.none => Option.none
            | cs5 => some ([(String.mk kp.1, vp.1)], cs5)
          | Option.none => Option.none
        | _ => Option.none
      | Option.none => Option.none
    | _ => Option.none

/-- Parsing of one JSON object (a flat record of scalar values). -/
def parseObj (fuel : Nat) (cs : List Char) : Option (List (String × Value) × List Char) :=
  match dropSpaces cs with
  | '{' :: cs1 =>
    match dropSpaces cs1 with
    | '}' :: r => some ([], r)
    | cs2 =>
      match parsePairs fuel cs2 with
      | some pp =>
        match dropSpaces pp.2 with
        | '}' :: r2 => some (pp.1, r2)
        | _ => Option.none
      | Option.none => Option.none
  | _ => Option.none

/-- `json.loads` on one line of the file, for the object fragment the
file exporter writes: the parsed record, provided the full line is
consumed (trailing whitespace aside). -/
def jsonLoads (s : String) : Option Record :=
  match parseObj (s.data.length + 1) s.data with
  | some p => if dropSpaces p.2 = [] then some p.1 else Option.none
  | Option.none => Option.none

-- ===========================================================================
-- Helper lemmas on the record (dict) model
-- ===========================================================================

theorem rlookup_nil (k : String) : rlookup [] k = Option.none := rfl

theorem rlookup_cons (a : String) (v : Value) (r : Record) (k : String) :
    rlookup ((a, v) :: r) k = if k = a then some v else rlookup r k := by
  by_cases h : k = a
  · simp [rlookup, List.lookup, h]
  · simp [rlookup, List.lookup, h, beq_false_of_ne h]

theorem rlookup_append (l1 l2 : Record) (k : String) :
    rlookup (l1 ++ l2) k =
      match rlookup l1 k with
      | some v => some v
      | Option.none => rlookup l2 k := by
  induction l1 with
  | nil => simp [rlookup]
  | cons a t ih =>
    obtain ⟨a, v⟩ := a
    by_cases h : k = a <;> simp [rlookup_cons, h, ih]

theorem rlookup_isSome_iff (r : Record) (k : String) :
    (rlookup r k).isSome = true ↔ k ∈ rkeys r := by
  induction r with
  | nil => simp [rlookup, rkeys]
  | cons a t ih =>
    obtain ⟨a, v⟩ := a
    by_cases h : k = a <;> simp [rlookup_cons, rkeys, h] <;> simp [rkeys] at ih <;>
      simp [ih]

theorem rkeys_map_overwrite (r : Record) (k : String) (v : Value) :
    rkeys (r.map (fun p => if p.1 = k then (k, v) else p)) = rkeys r := by
  unfold rkeys
  rw [List.map_map]
  apply List.map_congr_left
  intro p _hp
  by_cases h : p.1 = k <;> simp [h]

theorem rlookup_map_overwrite_ne (r : Record) (k kq : String) (v : Value) (h : kq ≠ k) :
    rlookup (r.map (fun p => if p.1 = k then (k, v) else p)) kq = rlookup r kq := by
  induction r with
  | nil => rfl
  | cons a t ih =>
    obtain ⟨a1, a2⟩ := a
    by_cases ha : a1 = k
    · subst ha
      simp [rlookup_cons, h, ih]
    · by_cases hk : kq = a1 <;> simp [rlookup_cons, ha, hk, ih]

theorem mem_rkeys_rset (r : Record) (k kq : String) (v : Value) :
    kq ∈ rkeys (rset r k v) ↔ kq ∈ rkeys r ∨ kq = k := by
  unfold rset
  split_ifs with h
  · rw [rkeys_map_overwrite]
    have hk : k ∈ rkeys r := (rlookup_isSome_iff r k).1 h
    constructor
    · exact Or.inl
    · rintro (hq | rfl)
      · exact hq
      · exact hk
  · simp [rkeys]

theorem rlookup_rset_self (r : Record) (k : String) (v : Value) :
    rlookup (rset r k v) k = some v := by
  unfold rset
  split_ifs with h
  · induction r with
    | nil => simp [rlookup] at h
    | cons a t ih =>
      obtain ⟨a1, a2⟩ := a
      by_cases ha : a1 = k
      · subst ha
        simp [rlookup_cons]
      · have hk : ¬ k = a1 := fun hkk => ha hkk.symm
        simp [rlookup_cons, ha, hk] at h ⊢
        exact ih h
  · have hn : rlookup r k = Option.none := by
      cases hx : rlookup r k
      · rfl
      · simp [hx] at h
    simp [rlookup_append, hn, rlookup_cons]

theorem rlookup_rset_ne (r : Record) (k kq : String) (v : Value) (h : kq ≠ k) :
    rlookup (rset r k v) kq = rlookup r kq := by
  unfold rset
  split_ifs with hs
  · exact rlookup_map_overwrite_ne r k kq v h
  · rw [rlookup_append]
    cases hx : rlookup r kq
    · simp [rlookup_cons, h, rlookup_nil]
    · simp

theorem mem_rkeys_fold_setIfIncluded (l : List (String × Value)) (d : Record) (k : String) :
    k ∈ rkeys (l.foldl setIfIncluded d) ↔
      k ∈ rkeys d ∨ ∃ p ∈ l, p.1 = k ∧ includeVal p.2 = true := by
  induction l generalizing d with
  | nil => simp
  | cons a t ih =>
    rw [List.foldl_cons, ih]
    unfold setIfIncluded
    by_cases h : includeVal a.2
    · simp only [h, if_true, mem_rkeys_rset, List.mem_cons]
      constructor
      · rintro ((hd | rfl) | ⟨p, hp, hk, hinc⟩)
        · exact Or.inl hd
        · exact Or.inr ⟨a, Or.inl rfl, rfl, h⟩
        · exact Or.inr ⟨p, Or.inr hp, hk, hinc⟩
      · rintro (hd | ⟨p, (rfl | hp), hk, hinc⟩)
        · exact Or.inl (Or.inl hd)
        · exact Or.inl (Or.inr hk.symm)
        · exact Or.inr ⟨p, hp, hk, hinc⟩
    · simp only [h, if_false, List.mem_cons]
      constructor
      · rintro (hd | ⟨p, hp, hk, hinc⟩)
        · exact Or.inl hd
        · exact Or.inr ⟨p, Or.inr hp, hk, hinc⟩
      · rintro (hd | ⟨p, (rfl | hp), hk, hinc⟩)
        · exact Or.inl hd
        · exact absurd hinc (by simp [h])
        · exact Or.inr ⟨p, hp, hk, hinc⟩

theorem rlookup_fold_setIfIncluded_ne (l : List (String × Value)) (d : Record) (k : String)
    (h : ∀ p ∈ l, p.1 ≠ k) :
    rlookup (l.foldl setIfIncluded d) k = rlookup d k := by
  induction l generalizing d with
  | nil => rfl
  | cons a t ih =>
    rw [List.foldl_cons, ih _ (fun p hp => h p (List.mem_cons_of_mem a hp))]
    unfold setIfIncluded
    split_ifs
    · exact rlookup_rset_ne d a.1 k a.2 (Ne.symm (h a (List.mem_cons_self a t)))
    · rfl

theorem rlookup_fold_setIfIncluded_once (l1 l2 : List (String × Value)) (k : String)
    (v : Value) (d : Record) (h1 : ∀ p ∈ l1, p.1 ≠ k) (h2 : ∀ p ∈ l2, p.1 ≠ k) :
    rlookup ((l1 ++ (k, v) :: l2).foldl setIfIncluded d) k =
      if includeVal v then some v else rlookup d k := by
  rw [List.foldl_append, List.foldl_cons, rlookup_fold_setIfIncluded_ne _ _ _ h2]
  unfold setIfIncluded
  split_ifs
  · exact rlookup_rset_self _ _ _
  · exact rlookup_fold_setIfIncluded_ne _ _ _ h1

theorem mem_rkeys_updateAll (attrs d : Record) (k : String) :
    k ∈ rkeys (updateAll d attrs) ↔ k ∈ rkeys d ∨ k ∈ rkeys attrs := by
  unfold updateAll
  induction attrs generalizing d with
  | nil => simp [rkeys]
  | cons a t ih =>
    rw [List.foldl_cons, ih, mem_rkeys_rset]
    simp only [rkeys, List.map_cons, List.mem_cons]
    tauto

-- ===========================================================================
-- C2 — MultiExporter fan-out
-- ===========================================================================

theorem multiExport_eq_any (l : List (Record → ExpOutcome)) (r : Record) :
    multiExport l r = true ↔ ∃ e ∈ l, e r = ExpOutcome.ok true := by
  induction l with
  | nil => simp [multiExport, multiExportResults]
  | cons f t ih =>
    constructor
    · intro hb
      simp only [multiExport, multiExportResults, List.map_cons, List.any_cons, id_eq,
        Bool.or_eq_true] at hb
      rcases hb with hb | hb
      · cases hx : f r with
        | ok b =>
          rw [hx] at hb
          simp at hb
          exact ⟨f, List.mem_cons_self f t, by rw [hx, hb]⟩
        | exc m =>
          rw [hx] at hb
          simp at hb
      · obtain ⟨e, he, hxx⟩ := ih.1 (by simpa [multiExport, multiExportResults] using hb)
        exact ⟨e, List.mem_cons_of_mem f he, hxx⟩
    · rintro ⟨e, he, hx⟩
      simp only [multiExport, multiExportResults, List.map_cons, List.any_cons, id_eq,
        Bool.or_eq_true]
      rcases List.mem_cons.mp he with rfl | he2
      · left
        rw [hx]
      · right
        have hh := ih.2 ⟨e, he2, hx⟩
        simpa [multiExport, multiExportResults] using hh

/-- C2: `MultiExporter.export` collects one boolean per member exporter (so
every member is called), converts a raised exception into a `False`
entry instead of propagating it, and returns `True` exactly when some
member's `export` returned `True`; in particular with three members of
which exactly one succeeds it returns `True`, and with three failing
members (one of them by raising) it returns `False`. -/
theorem multi_export_spec (exporters : List (Record → ExpOutcome)) (span_data : Record) :
    (multiExportResults exporters span_data).length = exporters.length ∧
    (multiExport exporters span_data = true ↔
      ∃ e ∈ exporters, e span_data = ExpOutcome.ok true) ∧
    multiExport [fun _ => .exc "boom", fun _ => .ok true, fun _ => .ok false] [] = true ∧
    multiExport [fun _ => .exc "boom", fun _ => .ok false, fun _ => .ok false] [] = false := by
  exact ⟨by simp [multiExportResults], multiExport_eq_any exporters span_data, rfl, rfl⟩

-- ===========================================================================
-- C3 — BaseExporter.export_batch default
-- ===========================================================================

/-- C3 counterexample: with an always-failing stateful exporter that counts
its calls, `export_batch` on two records calls `export` only once —
the claim that every record gets an `export` call is false. -/
theorem export_batch_counterexample :
    export_batch_calls (fun (n : Nat) _ => (n + 1, false)) 0
        [[("name", Value.vstr "a")], [("name", Value.vstr "b")]] ≠
      [[("name", Value.vstr "a")], [("name", Value.vstr "b")]] := by
  decide

/-- C3 amended: the default `export_batch` calls `export` sequentially but
stops at the first failure (the records actually passed are the prefix
of the list through the first failing one), and its result equals the
logical AND of the individual results of the full sequential run — so
the batch succeeds exactly when every member's export succeeds. -/
theorem export_batch_spec {σ : Type} (exportFn : σ → Record → σ × Bool) (s : σ)
    (spans : List Record) :
    (export_batch exportFn s spans).2 = (runAllResults exportFn s spans).all id ∧
    export_batch_calls exportFn s spans =
      spans.take (((runAllResults exportFn s spans).takeWhile id).length + 1) ∧
    ((export_batch exportFn s spans).2 = true ↔
      ∀ b ∈ runAllResults exportFn s spans, b = true) := by
  have main : ∀ (spans : List Record) (s : σ),
      (export_batch exportFn s spans).2 = (runAllResults exportFn s spans).all id ∧
      export_batch_calls exportFn s spans =
        spans.take (((runAllResults exportFn s spans).takeWhile id).length + 1) := by
    intro spans
    induction spans with
    | nil => intro s; simp [export_batch, export_batch_calls, runAllResults]
    | cons span t ih =>
      intro s
      rcases hsp : exportFn s span with ⟨s1, b⟩
      cases b
      · simp [export_batch, export_batch_calls, runAllResults, hsp]
      · simp [export_batch, export_batch_calls, runAllResults, hsp, (ih s1).1, (ih s1).2]
  refine ⟨(main spans s).1, (main spans s).2, ?_⟩
  rw [(main spans s).1, List.all_eq_true]
  simp

-- ===========================================================================
-- C9 — Elasticsearch round-robin host selection
-- ===========================================================================

theorem esIndexAfter_eq (hosts : List String) (k : Nat) : esIndexAfter hosts k = k := by
  induction k with
  | zero => rfl
  | succ n ih => simp [esIndexAfter, esGetHost, ih]

/-- C9 counterexample: `_get_host` returns `host.rstrip("/")`, so for a
host list containing a trailing-slash host the selection call does not
return the host at index `k mod n` itself. -/
theorem es_round_robin_counterexample :
    esHostAt ["http://x/"] 0 ≠ (["http://x/"] : List String).getD (0 % 1) "" := by
  decide

/-- C9 amended: the `k`-th successive `_get_host` call (counting from 0,
from the constructor's initial index) returns the host at index
`k mod len(hosts)` with its trailing `/` characters stripped. -/
theorem es_round_robin (hosts : List String) (k : Nat) (h : hosts ≠ []) :
    esHostAt hosts k = rstripSlash (hosts.getD (k % hosts.length) "") := by
  simp [esHostAt, esGetHost, esIndexAfter_eq]

/-- C9 witness: with hosts `[A, B, C]`, four successive selection calls
yield `A, B, C, A`. -/
theorem es_round_robin_witness :
    (["A", "B", "C"] : List String) ≠ [] ∧
    esHostAt ["A", "B", "C"] 0 = "A" ∧ esHostAt ["A", "B", "C"] 1 = "B" ∧
    esHostAt ["A", "B", "C"] 2 = "C" ∧ esHostAt ["A", "B", "C"] 3 = "A" := by
  refine ⟨by decide, ?_, ?_, ?_, ?_⟩ <;> rw [es_round_robin _ _ (by decide)] <;> decide

-- ===========================================================================
-- C10 — batching-mode export result never reflects delivery
-- ===========================================================================

/-- C10: for the batching network adapters (Splunk HEC and OTLP), with
`batch_size > 1` the boolean returned by `export` is `True`
unconditionally — also on the call whose enqueue triggers the
size-based flush, whatever the send outcome — while with
`batch_size <= 1` the returned boolean is exactly the send's result. -/
theorem batching_export_result (batch_size : Nat) (sendOk : Bool) (queue : List Record)
    (span_data : Record) :
    (1 < batch_size →
      (splunkExport batch_size sendOk queue span_data).result = true ∧
      (otlpExport batch_size sendOk queue span_data).result = true) ∧
    (batch_size ≤ 1 →
      (splunkExport batch_size sendOk queue span_data).result = sendOk ∧
      (otlpExport batch_size sendOk queue span_data).result = sendOk) := by
  constructor
  · intro h
    have h1 : ¬ batch_size ≤ 1 := by omega
    constructor
    · unfold splunkExport
      rw [if_neg h1]
      simp only [List.length_append, List.length_cons, List.length_nil]
      split <;> rfl
    · unfold otlpExport
      rw [if_neg h1]
      simp only [List.length_append, List.length_cons, List.length_nil]
      split <;> rfl
  · intro h
    constructor
    · unfold splunkExport
      rw [if_pos h]
    · unfold otlpExport
      rw [if_pos h]

/-- C10 witness: a flush-triggering export with a failing send still
returns `True` in batching mode; in unbatched mode the failing send's
`False` is returned. -/
theorem batching_export_result_witness :
    (1 < 2 ∧
      (splunkExport 2 false [[("k", Value.vint 1)]] [("k", Value.vint 2)]).result = true) ∧
    ((1 : Nat) ≤ 1 ∧
      (splunkExport 1 false [] [("k", Value.vint 2)]).result = false) :=
  ⟨⟨by decide,
    ((batching_export_result 2 false [[("k", Value.vint 1)]] [("k", Value.vint 2)]).1
      (by decide)).1⟩,
   ⟨by decide,
    ((batching_export_result 1 false [] [("k", Value.vint 2)]).2 (by decide)).1⟩⟩

-- ===========================================================================
-- C1 — size-triggered batching (Splunk HEC model)
-- ===========================================================================

theorem splunkRun_below (batch_size : Nat) (sendOk : Bool) (h : 1 < batch_size) :
    ∀ (rs queue : List Record), queue.length + rs.length < batch_size →
      splunkRun batch_size sendOk queue rs = (queue ++ rs, []) := by
  intro rs
  induction rs with
  | nil =>
    intro queue _
    simp [splunkRun]
  | cons r t ih =>
    intro queue hlen
    have h1 : ¬ batch_size ≤ 1 := by omega
    have h2 : ¬ batch_size ≤ queue.length + 1 := by
      simp only [List.length_cons] at hlen
      omega
    have hrec := ih (queue ++ [r]) (by
      simp only [List.length_append, List.length_cons, List.length_nil]
      simp only [List.length_cons] at hlen
      omega)
    have hstep : splunkExport batch_size sendOk queue r =
        { queue := queue ++ [r], result := true, sends := [] } := by
      unfold splunkExport
      simp [h1, h2]
    simp [splunkRun, hstep, hrec]

theorem splunkRun_fill (batch_size : Nat) (sendOk : Bool) (h : 1 < batch_size) :
    ∀ (rs queue : List Record), rs ≠ [] → queue.length + rs.length = batch_size →
      splunkRun batch_size sendOk queue rs = ([], [queue ++ rs]) := by
  intro rs
  induction rs with
  | nil =>
    intro queue hne _
    exact absurd rfl hne
  | cons r t ih =>
    intro queue _ hlen
    have h1 : ¬ batch_size ≤ 1 := by omega
    cases t with
    | nil =>
      have h2 : batch_size ≤ queue.length + 1 := by
        simp only [List.length_cons, List.length_nil] at hlen
        omega
      have hstep : splunkExport batch_size sendOk queue r =
          { queue := [], result := true, sends := [queue ++ [r]] } := by
        unfold splunkExport
        simp [h1, h2]
      simp [splunkRun, hstep]
    | cons r2 t2 =>
      have h2 : ¬ batch_size ≤ queue.length + 1 := by
        simp only [List.length_cons] at hlen
        omega
      have hrec := ih (queue ++ [r]) (by simp) (by
        simp only [List.length_append, List.length_cons, List.length_nil]
        simp only [List.length_cons] at hlen
        omega)
      have hstep : splunkExport batch_size sendOk queue r =
          { queue := queue ++ [r], result := true, sends := [] } := by
        unfold splunkExport
        simp [h1, h2]
      rw [splunkRun]
      simp only [hstep, hrec]
      simp

/-- C1: for the batching adapter with `batch_size > 1` starting from an
empty queue, as long as fewer than `batch_size` records have been
exported no send has occurred and the queue holds the exported records
in order; on the call that makes the queue length reach `batch_size`,
exactly one batched send fires whose batch is exactly those records and
the queue is empty afterwards — and the HEC payload wraps exactly that
batch (its `event` fields are the batch, in order). -/
theorem splunk_batching (batch_size : Nat) (sendOk : Bool) (index sourcetype : String)
    (h : 1 < batch_size) (rs : List Record) :
    (rs.length < batch_size → splunkRun batch_size sendOk [] rs = (rs, [])) ∧
    (rs.length = batch_size →
      splunkRun batch_size sendOk [] rs = ([], [rs]) ∧
      (splunkWrapBatch index sourcetype rs).map SplunkEvent.event = rs) := by
  constructor
  · intro hlen
    have hh := splunkRun_below batch_size sendOk h rs [] (by simpa using hlen)
    simpa using hh
  · intro hlen
    refine ⟨?_, ?_⟩
    · have hne : rs ≠ [] := by
        intro hnil
        rw [hnil] at hlen
        simp at hlen
        omega
      have hh := splunkRun_fill batch_size sendOk h rs [] hne (by simpa using hlen)
      simpa using hh
    · rw [splunkWrapBatch, List.map_map]
      have hfun : (SplunkEvent.event ∘ fun span : Record =>
          ({ index := index, sourcetype := sourcetype, source := "genai-telemetry",
             event := span } : SplunkEvent)) = id := rfl
      rw [hfun, List.map_id]

/-- C1 witness: `batch_size = 2`; after one export no send and the queue
holds that record; after the second, one send of both records in order
and an empty queue; the wrapped payload's events are the two records. -/
theorem splunk_batching_witness :
    1 < 2 ∧
    splunkRun 2 true [] [[("a", Value.vint 1)]] = ([[("a", Value.vint 1)]], []) ∧
    splunkRun 2 true [] [[("a", Value.vint 1)], [("a", Value.vint 2)]] =
      ([], [[[("a", Value.vint 1)], [("a", Value.vint 2)]]]) ∧
    (splunkWrapBatch "genai_traces" "genai:trace"
        [[("a", Value.vint 1)], [("a", Value.vint 2)]]).map SplunkEvent.event =
      [[("a", Value.vint 1)], [("a", Value.vint 2)]] := by
  refine ⟨by decide, ?_, ?_, ?_⟩
  · exact (splunk_batching 2 true "genai_traces" "genai:trace" (by decide)
      [[("a", Value.vint 1)]]).1 (by decide)
  · exact ((splunk_batching 2 true "genai_traces" "genai:trace" (by decide)
      [[("a", Value.vint 1)], [("a", Value.vint 2)]]).2 (by decide)).1
  · exact ((splunk_batching 2 true "genai_traces" "genai:trace" (by decide)
      [[("a", Value.vint 1)], [("a", Value.vint 2)]]).2 (by decide)).2

-- ===========================================================================
-- C6 — the Elasticsearch adapter mutates the handed-off record
-- ===========================================================================

/-- C6 counterexample: `ElasticsearchExporter.export` assigns an
`"@timestamp"` entry into the record it was handed, so a record without
that key is not equal to itself after the call. -/
theorem es_export_mutates_counterexample :
    esExportRecord "2024-01-01T00:00:00+00:00" [("name", Value.vstr "x")] ≠
      [("name", Value.vstr "x")] := by
  decide

/-- C6 amended: the Elasticsearch adapter's `export` leaves the record
unchanged when it already has an `"@timestamp"` key; otherwise it adds
exactly that one key (valued from `"timestamp"` when present, else the
current time) and changes no other binding. -/
theorem es_export_mutation (now : String) (r : Record) :
    ((rlookup r "@timestamp").isSome = true → esExportRecord now r = r) ∧
    (rlookup r "@timestamp" = Option.none →
      esExportRecord now r =
        r ++ [("@timestamp", (rlookup r "timestamp").getD (.vstr now))] ∧
      ∀ k, k ≠ "@timestamp" → rlookup (esExportRecord now r) k = rlookup r k) := by
  constructor
  · intro h
    simp [esExportRecord, h]
  · intro h
    have hs : ¬ (rlookup r "@timestamp").isSome = true := by simp [h]
    constructor
    · simp [esExportRecord, hs, rset, h]
    · intro k hk
      simp only [esExportRecord, hs, if_false]
      exact rlookup_rset_ne r "@timestamp" k _ hk

/-- C6 witness: both arms at concrete records. -/
theorem es_export_mutation_witness :
    ((rlookup [("@timestamp", Value.vstr "T0")] "@timestamp").isSome = true ∧
      esExportRecord "T1" [("@timestamp", Value.vstr "T0")] =
        [("@timestamp", Value.vstr "T0")]) ∧
    (rlookup [("name", Value.vstr "x")] "@timestamp" = Option.none ∧
      esExportRecord "T1" [("name", Value.vstr "x")] =
        [("name", Value.vstr "x"), ("@timestamp", Value.vstr "T1")]) := by
  constructor
  · exact ⟨by decide, (es_export_mutation "T1" [("@timestamp", Value.vstr "T0")]).1
      (by decide)⟩
  · refine ⟨by decide, ?_⟩
    have hh := ((es_export_mutation "T1" [("name", Value.vstr "x")]).2 (by decide)).1
    rw [hh]
    decide

-- ===========================================================================
-- C7 — setup-time validation in _create_exporter
-- ===========================================================================

/-- C7: `_create_exporter` raises a `ValueError` (no exporter value is
produced, so nothing can be exported) for a kind string outside the
recognized set, for `splunk` without a truthy URL or token, and for
`datadog` without a truthy API key. -/
theorem create_exporter_validation (ty : String) (config : Config) :
    (pyLower ty ∉ recognizedKinds →
      ∃ msg, createExporter ty config = Except.error msg) ∧
    ((pyNot (pyOr (config "splunk_url") (config "url")) = true ∨
      pyNot (pyOr (config "splunk_token") (config "token")) = true) →
      ∃ msg, createExporter "splunk" config = Except.error msg) ∧
    (pyNot (pyOr (config "datadog_api_key") (config "api_key")) = true →
      ∃ msg, createExporter "datadog" config = Except.error msg) := by
  refine ⟨?_, ?_, ?_⟩
  · intro hni
    simp only [recognizedKinds, List.mem_cons, List.not_mem_nil, or_false] at hni
    push_neg at hni
    obtain ⟨h1, h2, h3, h4, h5, h6, h7, h8, h9, h10, h11, h12, h13, h14⟩ := hni
    refine ⟨"Unknown exporter type: " ++ pyLower ty, ?_⟩
    simp [createExporter, h1, h2, h3, h4, h5, h6, h7, h8, h9, h10, h11, h12, h13, h14]
  · intro hc
    have ht : pyLower "splunk" = "splunk" := by decide
    refine ⟨"Splunk requires splunk_url and splunk_token", ?_⟩
    rcases hc with hc | hc <;> simp [createExporter, ht, hc]
  · intro hc
    have ht : pyLower "datadog" = "datadog" := by decide
    refine ⟨"Datadog requires datadog_api_key", ?_⟩
    simp [createExporter, ht, hc]

/-- C7 witness: an unknown kind, Splunk with no credentials, and Datadog
with no API key each yield a setup-time error on an empty config. -/
theorem create_exporter_validation_witness :
    pyLower "bogus" ∉ recognizedKinds ∧
    (∃ msg, createExporter "bogus" (fun _ => Option.none) = Except.error msg) ∧
    pyNot (pyOr Option.none Option.none) = true ∧
    (∃ msg, createExporter "splunk" (fun _ => Option.none) = Except.error msg) ∧
    (∃ msg, createExporter "datadog" (fun _ => Option.none) = Except.error msg) := by
  refine ⟨by decide, ?_, by decide, ?_, ?_⟩
  · exact (create_exporter_validation "bogus" (fun _ => Option.none)).1 (by decide)
  · exact (create_exporter_validation "splunk" (fun _ => Option.none)).2.1
      (Or.inl (by decide))
  · exact (create_exporter_validation "datadog" (fun _ => Option.none)).2.2 (by decide)

-- ===========================================================================
-- C4 — the serialized span record's key set
-- ===========================================================================

/-- C4 counterexample: for an LLM span with its default zero token counts,
`to_dict` re-inserts `input_tokens` with value `0`, so a zero-valued
optional field is not omitted. -/
theorem span_to_dict_counterexample :
    rlookup (Span.init "t" "s" "chat" "LLM" Option.none Option.none "ts").to_dict
        "input_tokens" = some (Value.vint 0) ∧
    includeVal (Value.vint 0) = false := by
  constructor
  · decide
  · decide

/-- C4 amended: `to_dict` always contains the eight base keys, and a key is
present exactly when it is a base key, an optional field whose value is
neither `None` nor `""` nor `0`, one of `input_tokens`/`output_tokens`
on an LLM span (these are forced in even when `0`), or a custom
attribute key (attributes are merged last and may reintroduce any
name). -/
theorem span_to_dict_keys (s : Span) (k : String) :
    k ∈ rkeys s.to_dict ↔
      (k ∈ alwaysKeys ∨
       (∃ p ∈ s.optionalFields, p.1 = k ∧ includeVal p.2 = true) ∨
       (s.span_type = "LLM" ∧ (k = "input_tokens" ∨ k = "output_tokens")) ∨
       k ∈ rkeys s.attributes) := by
  have base_keys : ∀ kk, kk ∈ rkeys s.baseDict ↔ kk ∈ alwaysKeys := by
    intro kk
    simp [Span.baseDict, alwaysKeys, rkeys]
  have mid : ∀ kk, kk ∈ rkeys (s.optionalFields.foldl setIfIncluded s.baseDict) ↔
      kk ∈ alwaysKeys ∨ ∃ p ∈ s.optionalFields, p.1 = kk ∧ includeVal p.2 = true := by
    intro kk
    rw [mem_rkeys_fold_setIfIncluded, base_keys kk]
  have mid2 : ∀ kk, kk ∈ rkeys
      (if s.span_type = "LLM" then
        rset (rset (s.optionalFields.foldl setIfIncluded s.baseDict)
          "input_tokens" (.vint s.input_tokens))
          "output_tokens" (.vint s.output_tokens)
      else s.optionalFields.foldl setIfIncluded s.baseDict) ↔
      ((kk ∈ alwaysKeys ∨ ∃ p ∈ s.optionalFields, p.1 = kk ∧ includeVal p.2 = true) ∨
        (s.span_type = "LLM" ∧ (kk = "input_tokens" ∨ kk = "output_tokens"))) := by
    intro kk
    by_cases hL : s.span_type = "LLM"
    · rw [if_pos hL, mem_rkeys_rset, mem_rkeys_rset, mid]
      simp only [hL, true_and]
      rw [or_assoc]
    · rw [if_neg hL, mid]
      have hne : ¬ (s.span_type = "LLM" ∧ (kk = "input_tokens" ∨ kk = "output_tokens")) :=
        fun hA => hL hA.1
      constructor
      · exact Or.inl
      · rintro (hX | hY)
        · exact hX
        · exact absurd hY hne
  unfold Span.to_dict
  by_cases hattr : s.attributes.isEmpty
  · have hnil : s.attributes = [] := by
      cases hA : s.attributes
      · rfl
      · rw [hA] at hattr
        simp [List.isEmpty] at hattr
    simp only [hattr, if_true]
    rw [mid2 k, hnil]
    simp only [rkeys, List.map_nil, List.not_mem_nil, or_false]
    rw [or_assoc]
  · simp only [hattr, Bool.false_eq_true, if_false]
    rw [mem_rkeys_updateAll, mid2 k, or_assoc, or_assoc]

-- ===========================================================================
-- C5 — scoped span exception path
-- ===========================================================================

theorem optionalFields_names (s : Span) (k : String)
    (hk : k ∉ ["workflow_name", "parent_span_id", "error_message", "error_type",
      "model_name", "model_provider", "input_tokens", "output_tokens", "temperature",
      "max_tokens", "embedding_model", "embedding_dimensions", "vector_store",
      "documents_retrieved", "relevance_score", "tool_name", "agent_name",
      "agent_type"]) :
    ∀ p ∈ s.optionalFields, p.1 ≠ k := by
  intro p hp
  simp only [List.mem_cons, List.not_mem_nil, or_false] at hk
  push_neg at hk
  obtain ⟨n1, n2, n3, n4, n5, n6, n7, n8, n9, n10, n11, n12, n13, n14, n15, n16,
    n17, n18⟩ := hk
  simp only [Span.optionalFields, List.mem_cons, List.not_mem_nil, or_false] at hp
  rcases hp with rfl | rfl | rfl | rfl | rfl | rfl | rfl | rfl | rfl | rfl | rfl |
    rfl | rfl | rfl | rfl | rfl | rfl | rfl
  all_goals intro hq
  all_goals subst hq
  all_goals
    first
      | exact n1 rfl | exact n2 rfl | exact n3 rfl | exact n4 rfl | exact n5 rfl
      | exact n6 rfl | exact n7 rfl | exact n8 rfl | exact n9 rfl | exact n10 rfl
      | exact n11 rfl | exact n12 rfl | exact n13 rfl | exact n14 rfl | exact n15 rfl
      | exact n16 rfl | exact n17 rfl | exact n18 rfl

theorem rlookup_to_dict_unset (s : Span) (hattr : s.attributes = []) (k : String)
    (hk : ∀ p ∈ s.optionalFields, p.1 ≠ k) (hk1 : k ≠ "input_tokens")
    (hk2 : k ≠ "output_tokens") :
    rlookup s.to_dict k = rlookup s.baseDict k := by
  unfold Span.to_dict
  have hE : s.attributes.isEmpty = true := by
    rw [hattr]
    rfl
  simp only [hE, if_true]
  by_cases hL : s.span_type = "LLM"
  · rw [if_pos hL, rlookup_rset_ne _ _ _ _ hk2, rlookup_rset_ne _ _ _ _ hk1,
      rlookup_fold_setIfIncluded_ne _ _ _ hk]
  · rw [if_neg hL, rlookup_fold_setIfIncluded_ne _ _ _ hk]

theorem rlookup_baseDict_status (s : Span) :
    rlookup s.baseDict "status" = some (.vstr s.status) := by
  simp [Span.baseDict, rlookup, List.lookup]

theorem rlookup_baseDict_is_error (s : Span) :
    rlookup s.baseDict "is_error" = some (.vint s.is_error) := by
  simp [Span.baseDict, rlookup, List.lookup]

theorem rlookup_to_dict_error_message (s : Span) (hattr : s.attributes = [])
    (hinc : includeVal (optStr s.error_message) = true) :
    rlookup s.to_dict "error_message" = some (optStr s.error_message) := by
  unfold Span.to_dict
  have hE : s.attributes.isEmpty = true := by
    rw [hattr]
    rfl
  simp only [hE, if_true]
  have h1 : ∀ p ∈ ([("workflow_name", optStr s.workflow_name),
      ("parent_span_id", optStr s.parent_span_id)] : List (String × Value)),
      p.1 ≠ "error_message" := by
    intro p hp
    fin_cases hp <;> simp
  have h2 : ∀ p ∈ ([("error_type", optStr s.error_type),
      ("model_name", optStr s.model_name),
      ("model_provider", optStr s.model_provider),
      ("input_tokens", .vint s.input_tokens),
      ("output_tokens", .vint s.output_tokens),
      ("temperature", optInt s.temperature),
      ("max_tokens", optInt s.max_tokens),
      ("embedding_model", optStr s.embedding_model),
      ("embedding_dimensions", optInt s.embedding_dimensions),
      ("vector_store", optStr s.vector_store),
      ("documents_retrieved", .vint s.documents_retrieved),
      ("relevance_score", optInt s.relevance_score),
      ("tool_name", optStr s.tool_name),
      ("agent_name", optStr s.agent_name),
      ("agent_type", optStr s.agent_type)] : List (String × Value)),
      p.1 ≠ "error_message" := by
    intro p hp
    fin_cases hp <;> simp
  have hsplit : s.optionalFields =
      [("workflow_name", optStr s.workflow_name),
       ("parent_span_id", optStr s.parent_span_id)] ++
      ("error_message", optStr s.error_message) ::
      [("error_type", optStr s.error_type),
       ("model_name", optStr s.model_name),
       ("model_provider", optStr s.model_provider),
       ("input_tokens", .vint s.input_tokens),
       ("output_tokens", .vint s.output_tokens),
       ("temperature", optInt s.temperature),
       ("max_tokens", optInt s.max_tokens),
       ("embedding_model", optStr s.embedding_model),
       ("embedding_dimensions", optInt s.embedding_dimensions),
       ("vector_store", optStr s.vector_store),
       ("documents_retrieved", .vint s.documents_retrieved),
       ("relevance_score", optInt s.relevance_score),
       ("tool_name", optStr s.tool_name),
       ("agent_name", optStr s.agent_name),
       ("agent_type", optStr s.agent_type)] := rfl
  have hmain : rlookup (s.optionalFields.foldl setIfIncluded s.baseDict)
      "error_message" = some (optStr s.error_message) := by
    rw [hsplit, rlookup_fold_setIfIncluded_once _ _ _ _ _ h1 h2, if_pos hinc]
  by_cases hL : s.span_type = "LLM"
  · rw [if_pos hL, rlookup_rset_ne _ _ _ _ (by decide),
      rlookup_rset_ne _ _ _ _ (by decide), hmain]
  · rw [if_neg hL, hmain]

/-- C5 counterexample: when the raised exception's message is the empty
string, the exported record carries no `error_message` key at all
(sparse encoding drops the `""` value), so the record's
`error_message` is not equal to the exception's message. -/
theorem start_span_empty_message_counterexample :
    (startSpanRaising ⟨"wf", "tid", [], []⟩ "op" "TOOL" "sid" "ts" 5
        ⟨"ValueError", ""⟩).1.exported.length = 1 ∧
    rlookup ((startSpanRaising ⟨"wf", "tid", [], []⟩ "op" "TOOL" "sid" "ts" 5
        ⟨"ValueError", ""⟩).1.exported.getD 0 []) "error_message" = Option.none := by
  constructor
  · decide
  · decide

/-- C5 amended: when the body of `start_span` raises `e`, exactly one record
is exported (on this exit path as on the normal one), the record has
`status = "ERROR"`, `is_error = 1` and — whenever `e`'s message is
non-empty, the empty message being dropped by sparse encoding —
`error_message` equal to `e`'s message; the span stack is restored and
the same exception is re-raised. -/
theorem start_span_error_path (st : TState) (name span_type span_id ts : String)
    (dur : Int) (e : PyExc) (hmsg : e.msg ≠ "") :
    ∃ rec : Record,
      (startSpanRaising st name span_type span_id ts dur e).1.exported =
        st.exported ++ [rec] ∧
      rlookup rec "status" = some (.vstr "ERROR") ∧
      rlookup rec "is_error" = some (.vint 1) ∧
      rlookup rec "error_message" = some (.vstr e.msg) ∧
      (startSpanRaising st name span_type span_id ts dur e).1.span_stack =
        st.span_stack ∧
      (startSpanRaising st name span_type span_id ts dur e).2 = e := by
  set sp : Span := (Span.init st.trace_id span_id name span_type
    (some st.workflow_name) ((st.span_stack.getLast?).map Span.span_id) ts).finish
    dur (some e) with hsp
  refine ⟨sp.to_dict, ?_, ?_, ?_, ?_, ?_, rfl⟩
  · simp [startSpanRaising, hsp]
  · rw [rlookup_to_dict_unset sp rfl "status"
      (optionalFields_names sp "status" (by decide)) (by decide) (by decide),
      rlookup_baseDict_status]
    rfl
  · rw [rlookup_to_dict_unset sp rfl "is_error"
      (optionalFields_names sp "is_error" (by decide)) (by decide) (by decide),
      rlookup_baseDict_is_error]
    rfl
  · have hinc : includeVal (optStr sp.error_message) = true := by
      have hem : sp.error_message = some e.msg := rfl
      rw [hem]
      simp [includeVal, optStr, pyEqEmptyStr, pyEqZero, hmsg]
    rw [rlookup_to_dict_error_message sp rfl hinc]
    rfl
  · simp [startSpanRaising, List.dropLast_concat]

/-- C5 witness: a concrete run with a non-empty exception message. -/
theorem start_span_error_path_witness :
    ("boom" : String) ≠ "" ∧
    (∃ rec : Record,
      (startSpanRaising ⟨"wf", "tid", [], []⟩ "op" "TOOL" "sid" "ts" 5
          ⟨"ValueError", "boom"⟩).1.exported = [] ++ [rec] ∧
      rlookup rec "status" = some (.vstr "ERROR") ∧
      rlookup rec "is_error" = some (.vint 1) ∧
      rlookup rec "error_message" = some (.vstr "boom") ∧
      (startSpanRaising ⟨"wf", "tid", [], []⟩ "op" "TOOL" "sid" "ts" 5
          ⟨"ValueError", "boom"⟩).1.span_stack = [] ∧
      (startSpanRaising ⟨"wf", "tid", [], []⟩ "op" "TOOL" "sid" "ts" 5
          ⟨"ValueError", "boom"⟩).2 = ⟨"ValueError", "boom"⟩) :=
  ⟨by decide, start_span_error_path ⟨"wf", "tid", [], []⟩ "op" "TOOL" "sid" "ts" 5
    ⟨"ValueError", "boom"⟩ (by decide)⟩

-- ===========================================================================
-- C8 — JSON line round trip (file exporter)
-- ===========================================================================

theorem string_mk_data (s : String) : String.mk s.data = s := rfl

theorem hexVal_hexDigit : ∀ n < 16, hexVal (hexDigit n) = some n := by decide

theorem hex4_enc (n : Nat) (h : n < 32) :
    hex4 '0' '0' (hexDigit (n / 16)) (hexDigit (n % 16)) = some n := by
  have h0 : hexVal '0' = some 0 := by decide
  have h1 : n / 16 < 16 := by omega
  have h2 : n % 16 < 16 := by omega
  simp [hex4, h0, hexVal_hexDigit _ h1, hexVal_hexDigit _ h2]
  omega

theorem parseStrAux_enc (s : List Char) :
    ∀ (fuel : Nat) (rest : List Char), s.length < fuel →
      parseStrAux fuel (s.flatMap encChar ++ '"' :: rest) = some (s, rest) := by
  induction s with
  | nil =>
    intro fuel rest hf
    cases fuel with
    | zero => simp at hf
    | succ f => simp [parseStrAux]
  | cons c cs ih =>
    intro fuel rest hf
    cases fuel with
    | zero => simp at hf
    | succ f =>
      have hcs : cs.length < f := by
        simp only [List.length_cons] at hf
        omega
      have hfm : (c :: cs).flatMap encChar = encChar c ++ cs.flatMap encChar := rfl
      have hrec := ih f rest hcs
      by_cases h1 : c = '"'
      · subst h1
        have henc : encChar '"' = ['\\', '"'] := by decide
        rw [hfm, henc]
        simp [parseStrAux, escDecode, hrec]
      · by_cases h2 : c = '\\'
        · subst h2
          have henc : encChar '\\' = ['\\', '\\'] := by decide
          rw [hfm, henc]
          simp [parseStrAux, escDecode, hrec]
        · by_cases h3 : c = Char.ofNat 8
          · subst h3
            have henc : encChar (Char.ofNat 8) = ['\\', 'b'] := by decide
            rw [hfm, henc]
            simp [parseStrAux, escDecode, hrec]
          · by_cases h4 : c = Char.ofNat 9
            · subst h4
              have henc : encChar (Char.ofNat 9) = ['\\', 't'] := by decide
              rw [hfm, henc]
              simp [parseStrAux, escDecode, hrec]
            · by_cases h5 : c = Char.ofNat 10
              · subst h5
                have henc : encChar (Char.ofNat 10) = ['\\', 'n'] := by decide
                rw [hfm, henc]
                simp [parseStrAux, escDecode, hrec]
              · by_cases h6 : c = Char.ofNat 12
                · subst h6
                  have henc : encChar (Char.ofNat 12) = ['\\', 'f'] := by decide
                  rw [hfm, henc]
                  simp [parseStrAux, escDecode, hrec]
                · by_cases h7 : c = Char.ofNat 13
                  · subst h7
                    have henc : encChar (Char.ofNat 13) = ['\\', 'r'] := by decide
                    rw [hfm, henc]
                    simp [parseStrAux, escDecode, hrec]
                  · by_cases hq : c.toNat < 32
                    · have henc : encChar c = ['\\', 'u', '0', '0',
                          hexDigit (c.toNat / 16), hexDigit (c.toNat % 16)] := by
                        simp [encChar, h1, h2, h3, h4, h5, h6, h7, hq]
                      rw [hfm, henc]
                      have hh := hex4_enc c.toNat hq
                      simp [parseStrAux, hh, Char.ofNat_toNat, hrec]
                    · have henc : encChar c = [c] := by
                        simp [encChar, h1, h2, h3, h4, h5, h6, h7, hq]
                      rw [hfm, henc]
                      simp [parseStrAux, h1, h2, hrec]

theorem digit_char_facts : ∀ m < 10,
    isDigitChar (Char.ofNat (48 + m)) = true ∧ (Char.ofNat (48 + m)).toNat = 48 + m := by
  decide

theorem natDec_ne_nil (n : Nat) : natDec n ≠ [] := by
  unfold natDec
  split_ifs <;> simp

theorem natDec_digits (n : Nat) : ∀ c ∈ natDec n, isDigitChar c = true := by
  induction n using Nat.strong_induction_on with
  | _ n ih =>
    intro c hc
    unfold natDec at hc
    split_ifs at hc with h
    · simp only [List.mem_singleton] at hc
      subst hc
      exact (digit_char_facts n h).1
    · rw [List.mem_append] at hc
      rcases hc with hc | hc
      · exact ih (n / 10) (Nat.div_lt_self (by omega) (by omega)) c hc
      · simp only [List.mem_singleton] at hc
        subst hc
        exact (digit_char_facts (n % 10) (by omega)).1

theorem parseDigits_append (n : Nat) :
    ∀ (acc : Nat) (rest : List Char),
      parseDigits acc (natDec n ++ rest) =
        parseDigits (acc * 10 ^ (natDec n).length + n) rest := by
  induction n using Nat.strong_induction_on with
  | _ n ih =>
    intro acc rest
    by_cases h : n < 10
    · have hdec : natDec n = [Char.ofNat (48 + n)] := by
        unfold natDec
        rw [dif_pos h]
      rw [hdec]
      have hd := digit_char_facts n h
      simp only [List.cons_append, List.nil_append, parseDigits, hd.1, if_true, hd.2]
      congr 1
      simp only [List.length_singleton, pow_one]
      omega
    · have hdec : natDec n = natDec (n / 10) ++ [Char.ofNat (48 + n % 10)] := by
        conv_lhs => rw [natDec]
        rw [dif_neg h]
      rw [hdec, List.append_assoc, ih (n / 10) (Nat.div_lt_self (by omega) (by omega))]
      have hd := digit_char_facts (n % 10) (by omega)
      simp only [List.cons_append, List.nil_append, parseDigits, hd.1, if_true, hd.2]
      congr 1
      simp only [List.length_append, List.length_singleton]
      rw [pow_succ]
      have hnm : 48 + n % 10 - 48 = n % 10 := by omega
      rw [hnm]
      calc (acc * 10 ^ (natDec (n / 10)).length + n / 10) * 10 + n % 10
          = acc * (10 ^ (natDec (n / 10)).length * 10) + (10 * (n / 10) + n % 10) := by
            ring
        _ = acc * (10 ^ (natDec (n / 10)).length * 10) + n := by
            rw [Nat.div_add_mod]

theorem parseDigits_nondigit (acc : Nat) (rest : List Char)
    (h : headIsDigit rest = false) :
    parseDigits acc rest = (acc, rest) := by
  cases rest with
  | nil => rfl
  | cons c t =>
    simp only [headIsDigit] at h
    simp [parseDigits, h]

theorem parseDigits_natDec (n : Nat) (rest : List Char) (h : headIsDigit rest = false) :
    parseDigits 0 (natDec n ++ rest) = (n, rest) := by
  rw [parseDigits_append n 0 rest, parseDigits_nondigit _ _ h]
  simp

theorem headIsDigit_natDec (n : Nat) (rest : List Char) :
    headIsDigit (natDec n ++ rest) = true := by
  have hne := natDec_ne_nil n
  cases hd : natDec n with
  | nil => exact absurd hd hne
  | cons c t =>
    have hc : isDigitChar c = true := natDec_digits n c (by
      rw [hd]
      exact List.mem_cons_self c t)
    simp [headIsDigit, hd, hc]

theorem digit_not_special (c : Char) (h : isDigitChar c = true) :
    c ≠ '"' ∧ c ≠ 'n' ∧ c ≠ 't' ∧ c ≠ 'f' ∧ c ≠ '-' ∧ isJsonWs c = false := by
  simp only [isDigitChar, Bool.and_eq_true, decide_eq_true_eq] at h
  have hne : ∀ d : Char, d.toNat < 48 ∨ 57 < d.toNat → c ≠ d := by
    intro d hd hcd
    subst hcd
    omega
  refine ⟨hne '"' (by decide), hne 'n' (by decide), hne 't' (by decide),
    hne 'f' (by decide), hne '-' (by decide), ?_⟩
  have hsp : c ≠ ' ' := hne ' ' (by decide)
  have htb : c ≠ '\t' := hne '\t' (by decide)
  have hnl : c ≠ '\n' := hne '\n' (by decide)
  have hcr : c ≠ '\r' := hne '\r' (by decide)
  simp [isJsonWs, hsp, htb, hnl, hcr]

theorem dropSpaces_not_ws (c : Char) (cs : List Char) (h : isJsonWs c = false) :
    dropSpaces (c :: cs) = c :: cs := by
  simp [dropSpaces, List.dropWhile_cons, h]

theorem dropSpaces_space (cs : List Char) :
    dropSpaces (' ' :: cs) = dropSpaces cs := by
  have hw : isJsonWs ' ' = true := by decide
  simp [dropSpaces, List.dropWhile_cons, hw]

theorem parseValue_enc (v : Value) (fuel : Nat) (rest : List Char)
    (hfuel : ∀ s : String, v = .vstr s → s.data.length < fuel)
    (hrest : headIsDigit rest = false) :
    parseValue fuel (encValue v ++ rest) = some (v, rest) := by
  cases v with
  | none => simp [encValue, parseValue]
  | vbool b => cases b <;> simp [encValue, parseValue]
  | vint n =>
    by_cases hn : n < 0
    · have henc : encValue (.vint n) = '-' :: natDec n.natAbs := by
        simp [encValue, encInt, hn]
      rw [henc]
      simp only [List.cons_append]
      simp [parseValue, headIsDigit_natDec, parseDigits_natDec _ _ hrest]
      rw [abs_of_nonpos (le_of_lt hn), neg_neg]
    · have henc : encValue (.vint n) = natDec n.natAbs := by
        simp [encValue, encInt, hn]
      rw [henc]
      obtain ⟨c, t, hct⟩ : ∃ c t, natDec n.natAbs = c :: t := by
        cases hd : natDec n.natAbs with
        | nil => exact absurd hd (natDec_ne_nil _)
        | cons c t => exact ⟨c, t, rfl⟩
      have hcdig : isDigitChar c = true := natDec_digits _ c (by
        rw [hct]
        exact List.mem_cons_self c t)
      obtain ⟨d1, d2, d3, d4, d5, _⟩ := digit_not_special c hcdig
      have hpd : parseDigits 0 (c :: (t ++ rest)) = (n.natAbs, rest) := by
        have hh : c :: (t ++ rest) = natDec n.natAbs ++ rest := by
          rw [hct]
          simp
        rw [hh, parseDigits_natDec _ _ hrest]
      rw [hct]
      simp only [List.cons_append]
      simp [parseValue, d1, d2, d3, d4, d5, hcdig, hpd]
      have habs : ((n.natAbs : Int)) = n := Int.natAbs_of_nonneg (by omega)
      omega
  | vstr s =>
    have hlen := hfuel s rfl
    have hexp : encValue (.vstr s) ++ rest =
        '"' :: (s.data.flatMap encChar ++ '"' :: rest) := by
      simp [encValue, encString]
    rw [hexp]
    simp [parseValue, parseStrAux_enc s.data fuel rest hlen, string_mk_data]

theorem encChar_length_pos (c : Char) : 1 ≤ (encChar c).length := by
  unfold encChar
  split_ifs <;> simp

theorem le_length_flatMap (s : List Char) : s.length ≤ (s.flatMap encChar).length := by
  induction s with
  | nil => simp
  | cons c cs ih =>
    have h := encChar_length_pos c
    have hfm : (c :: cs).flatMap encChar = encChar c ++ cs.flatMap encChar := rfl
    rw [hfm]
    simp only [List.length_append, List.length_cons]
    omega

theorem encString_length (k : String) :
    (encString k).length = (k.data.flatMap encChar).length + 2 := by
  simp [encString]

theorem encValue_vstr_length (s : String) :
    (encValue (.vstr s)).length = (s.data.flatMap encChar).length + 2 := by
  simp only [encValue]
  exact encString_length s

theorem dropSpaces_encValue (v : Value) (rest : List Char) :
    dropSpaces (encValue v ++ rest) = encValue v ++ rest := by
  cases v with
  | none =>
    simp only [encValue, List.cons_append]
    exact dropSpaces_not_ws _ _ (by decide)
  | vbool b =>
    cases b <;>
      (simp only [encValue, List.cons_append]
       exact dropSpaces_not_ws _ _ (by decide))
  | vint n =>
    by_cases hn : n < 0
    · simp only [encValue, encInt, if_pos hn, List.cons_append]
      exact dropSpaces_not_ws _ _ (by decide)
    · simp only [encValue, encInt, if_neg hn]
      obtain ⟨c, t, hct⟩ : ∃ c t, natDec n.natAbs = c :: t := by
        cases hd : natDec n.natAbs with
        | nil => exact absurd hd (natDec_ne_nil _)
        | cons c t => exact ⟨c, t, rfl⟩
      have hcdig : isDigitChar c = true := natDec_digits _ c (by
        rw [hct]
        exact List.mem_cons_self c t)
      rw [hct, List.cons_append]
      exact dropSpaces_not_ws _ _ (digit_not_special c hcdig).2.2.2.2.2
  | vstr s =>
    simp only [encValue, encString, List.cons_append]
    exact dropSpaces_not_ws _ _ (by decide)

theorem parsePairs_enc (l : List (String × Value)) :
    ∀ (fuel : Nat) (rest : List Char), l ≠ [] → (encPairs l).length < fuel →
      parsePairs fuel (encPairs l ++ '}' :: rest) = some (l, '}' :: rest) := by
  induction l with
  | nil =>
    intro fuel rest hne _
    exact absurd rfl hne
  | cons kv l2 ih =>
    intro fuel rest _ hflen
    cases fuel with
    | zero => exact absurd hflen (by omega)
    | succ f =>
      obtain ⟨k, v⟩ := kv
      cases l2 with
      | nil =>
        have hsp : encPairs [(k, v)] = encString k ++ (':' :: ' ' :: encValue v) := rfl
        have hlen1 : (encPairs [(k, v)]).length =
            (encString k).length + ((encValue v).length + 2) := by
          rw [hsp]
          simp only [List.length_append, List.length_cons]
        have hklen : k.data.length < f + 1 := by
          have hf1 := le_length_flatMap k.data
          have hf2 := encString_length k
          omega
        have hvlen : ∀ s : String, v = .vstr s → s.data.length < f + 1 := by
          intro s hsv
          subst hsv
          have hf1 := le_length_flatMap s.data
          have hf2 := encValue_vstr_length s
          omega
        have hexp : encPairs [(k, v)] ++ '}' :: rest =
            '"' :: (k.data.flatMap encChar ++ '"' ::
              (':' :: (' ' :: (encValue v ++ '}' :: rest)))) := by
          rw [hsp]
          simp [encString]
        have hstr := parseStrAux_enc k.data (f + 1)
          (':' :: (' ' :: (encValue v ++ '}' :: rest))) hklen
        have hv := parseValue_enc v (f + 1) ('}' :: rest) hvlen (by
          simp only [headIsDigit]
          decide)
        have hd1 : dropSpaces (':' :: (' ' :: (encValue v ++ '}' :: rest))) =
            ':' :: (' ' :: (encValue v ++ '}' :: rest)) :=
          dropSpaces_not_ws _ _ (by decide)
        have hd2 : dropSpaces (' ' :: (encValue v ++ '}' :: rest)) =
            encValue v ++ '}' :: rest := by
          rw [dropSpaces_space, dropSpaces_encValue]
        have hd3 : dropSpaces ('}' :: rest) = '}' :: rest :=
          dropSpaces_not_ws _ _ (by decide)
        rw [hexp]
        simp [parsePairs, hstr, hd1, hd2, hd3, hv, string_mk_data]
      | cons p l3 =>
        have hsp : encPairs ((k, v) :: p :: l3) =
            encString k ++ (':' :: ' ' ::
              (encValue v ++ (',' :: ' ' :: encPairs (p :: l3)))) := by
          rfl
        have hlen1 : (encPairs ((k, v) :: p :: l3)).length =
            (encString k).length +
              ((encValue v).length + ((encPairs (p :: l3)).length + 4)) := by
          rw [hsp]
          simp only [List.length_append, List.length_cons]
          omega
        have hklen : k.data.length < f + 1 := by
          have hf1 := le_length_flatMap k.data
          have hf2 := encString_length k
          omega
        have hvlen : ∀ s : String, v = .vstr s → s.data.length < f + 1 := by
          intro s hsv
          subst hsv
          have hf1 := le_length_flatMap s.data
          have hf2 := encValue_vstr_length s
          omega
        have hrec := ih f rest (by simp) (by omega)
        have hexp : encPairs ((k, v) :: p :: l3) ++ '}' :: rest =
            '"' :: (k.data.flatMap encChar ++ '"' ::
              (':' :: (' ' :: (encValue v ++ ',' ::
                (' ' :: (encPairs (p :: l3) ++ '}' :: rest)))))) := by
          rw [hsp]
          simp [encString]
        have hstr := parseStrAux_enc k.data (f + 1)
          (':' :: (' ' :: (encValue v ++ ',' ::
            (' ' :: (encPairs (p :: l3) ++ '}' :: rest))))) hklen
        have hv := parseValue_enc v (f + 1)
          (',' :: (' ' :: (encPairs (p :: l3) ++ '}' :: rest))) hvlen (by
          simp only [headIsDigit]
          decide)
        have hd1 : dropSpaces (':' :: (' ' :: (encValue v ++ ',' ::
            (' ' :: (encPairs (p :: l3) ++ '}' :: rest))))) =
            ':' :: (' ' :: (encValue v ++ ',' ::
              (' ' :: (encPairs (p :: l3) ++ '}' :: rest)))) :=
          dropSpaces_not_ws _ _ (by decide)
        have hd2 : dropSpaces (' ' :: (encValue v ++ ',' ::
            (' ' :: (encPairs (p :: l3) ++ '}' :: rest)))) =
            encValue v ++ ',' :: (' ' :: (encPairs (p :: l3) ++ '}' :: rest)) := by
          rw [dropSpaces_space, dropSpaces_encValue]
        have hd5 : dropSpaces (',' :: (' ' :: (encPairs (p :: l3) ++ '}' :: rest))) =
            ',' :: (' ' :: (encPairs (p :: l3) ++ '}' :: rest)) :=
          dropSpaces_not_ws _ _ (by decide)
        obtain ⟨t, ht⟩ : ∃ t, encPairs (p :: l3) = '"' :: t := by
          obtain ⟨pk, pv⟩ := p
          cases l3 with
          | nil =>
            exact ⟨pk.data.flatMap encChar ++ '"' :: (':' :: ' ' :: encValue pv),
              by simp [encPairs, encString]⟩
          | cons q l4 =>
            exact ⟨pk.data.flatMap encChar ++ '"' ::
              (':' :: ' ' :: (encValue pv ++ (',' :: ' ' :: encPairs (q :: l4)))),
              by simp [encPairs, encString]⟩
        have hd4 : dropSpaces (' ' :: (encPairs (p :: l3) ++ '}' :: rest)) =
            encPairs (p :: l3) ++ '}' :: rest := by
          rw [dropSpaces_space, ht, List.cons_append]
          exact dropSpaces_not_ws _ _ (by decide)
        rw [hexp]
        simp [parsePairs, hstr, hd1, hd2, hv, hd5, hd4, hrec, string_mk_data]

theorem encPairs_cons_head (kv : String × Value) (l : List (String × Value)) :
    ∃ t, encPairs (kv :: l) = '"' :: t := by
  obtain ⟨pk, pv⟩ := kv
  cases l with
  | nil =>
    exact ⟨pk.data.flatMap encChar ++ '"' :: (':' :: ' ' :: encValue pv),
      by simp [encPairs, encString]⟩
  | cons q l4 =>
    exact ⟨pk.data.flatMap encChar ++ '"' ::
      (':' :: ' ' :: (encValue pv ++ (',' :: ' ' :: encPairs (q :: l4)))),
      by simp [encPairs, encString]⟩

theorem jsonLoads_dumps (r : Record) : jsonLoads (jsonDumps r) = some r := by
  cases r with
  | nil => decide
  | cons kv l =>
    unfold jsonLoads jsonDumps
    have hdata : (String.mk (encRecord (kv :: l))).data = encRecord (kv :: l) := rfl
    have hrec : encRecord (kv :: l) = '{' :: (encPairs (kv :: l) ++ '}' :: []) := by
      simp [encRecord]
    have hfuel : (encPairs (kv :: l)).length <
        ('{' :: (encPairs (kv :: l) ++ '}' :: [])).length + 1 := by
      simp
      omega
    have hpp := parsePairs_enc (kv :: l)
      (('{' :: (encPairs (kv :: l) ++ '}' :: [])).length + 1) [] (by simp) hfuel
    obtain ⟨t, ht⟩ := encPairs_cons_head kv l
    rw [hdata, hrec, ht]
    rw [ht] at hpp
    simp at hpp
    simp [parseObj, dropSpaces, isJsonWs, hpp]

theorem hexDigit_ne_newline : ∀ m < 16, hexDigit m ≠ '\n' := by decide

theorem encChar_no_newline (c : Char) : ('\n' : Char) ∉ encChar c := by
  unfold encChar
  split_ifs with h1 h2 h3 h4 h5 h6 h7 h8
  · decide
  · decide
  · decide
  · decide
  · decide
  · decide
  · decide
  · intro hmem
    simp only [List.mem_cons, List.not_mem_nil, or_false] at hmem
    rcases hmem with h | h | h | h | h | h
    · exact absurd h (by decide)
    · exact absurd h (by decide)
    · exact absurd h (by decide)
    · exact absurd h (by decide)
    · exact hexDigit_ne_newline (c.toNat / 16) (by omega) h.symm
    · exact hexDigit_ne_newline (c.toNat % 16) (by omega) h.symm
  · intro hmem
    simp only [List.mem_singleton] at hmem
    rw [← hmem] at h8
    exact h8 (by decide)

theorem natDec_no_newline (n : Nat) : ('\n' : Char) ∉ natDec n := by
  intro hmem
  have hh := natDec_digits n _ hmem
  exact absurd hh (by decide)

theorem encString_no_newline (k : String) : ('\n' : Char) ∉ encString k := by
  simp only [encString]
  intro hmem
  rcases List.mem_cons.mp hmem with h | h
  · exact absurd h (by decide)
  rcases List.mem_append.mp h with h | h
  · obtain ⟨c, _, hc⟩ := List.mem_flatMap.mp h
    exact encChar_no_newline c hc
  · exact absurd (List.mem_singleton.mp h) (by decide)

theorem encValue_no_newline (v : Value) : ('\n' : Char) ∉ encValue v := by
  cases v with
  | none => decide
  | vbool b => cases b <;> decide
  | vint n =>
    by_cases hn : n < 0
    · simp only [encValue, encInt, if_pos hn]
      intro hmem
      rcases List.mem_cons.mp hmem with h | h
      · exact absurd h (by decide)
      · exact natDec_no_newline _ h
    · simp only [encValue, encInt, if_neg hn]
      exact natDec_no_newline _
  | vstr s => exact encString_no_newline s

theorem encPairs_no_newline (l : List (String × Value)) :
    ('\n' : Char) ∉ encPairs l := by
  induction l with
  | nil => simp [encPairs]
  | cons kv l2 ih =>
    cases l2 with
    | nil =>
      intro hmem
      have hsp : encPairs [kv] = encString kv.1 ++ (':' :: ' ' :: encValue kv.2) := rfl
      rw [hsp] at hmem
      rcases List.mem_append.mp hmem with h | h
      · exact encString_no_newline _ h
      rcases List.mem_cons.mp h with h | h
      · exact absurd h (by decide)
      rcases List.mem_cons.mp h with h | h
      · exact absurd h (by decide)
      · exact encValue_no_newline _ h
    | cons p l3 =>
      intro hmem
      have hsp : encPairs (kv :: p :: l3) = encString kv.1 ++
          (':' :: ' ' :: (encValue kv.2 ++ (',' :: ' ' :: encPairs (p :: l3)))) := rfl
      rw [hsp] at hmem
      rcases List.mem_append.mp hmem with h | h
      · exact encString_no_newline _ h
      rcases List.mem_cons.mp h with h | h
      · exact absurd h (by decide)
      rcases List.mem_cons.mp h with h | h
      · exact absurd h (by decide)
      rcases List.mem_append.mp h with h | h
      · exact encValue_no_newline _ h
      rcases List.mem_cons.mp h with h | h
      · exact absurd h (by decide)
      rcases List.mem_cons.mp h with h | h
      · exact absurd h (by decide)
      · exact ih h

theorem jsonDumps_no_newline (r : Record) : ('\n' : Char) ∉ (jsonDumps r).data := by
  intro hmem
  have hd : (jsonDumps r).data = '{' :: (encPairs r ++ ['}']) := rfl
  rw [hd] at hmem
  rcases List.mem_cons.mp hmem with h | h
  · exact absurd h (by decide)
  rcases List.mem_append.mp h with h | h
  · exact encPairs_no_newline r h
  · exact absurd (List.mem_singleton.mp h) (by decide)

/-- C8: the file exporter appends `json.dumps(record)` as one line (the
dumped text contains no newline, so the line framing is faithful), the
appended line is the last line of the file, and `json.loads` of that
line reproduces the record exactly — for every record over the
JSON-representable model values, with the keys unique as in a Python
dict. -/
theorem file_round_trip (file : List String) (r : Record)
    (hkeys : (rkeys r).Nodup) :
    fileExportLines file r = file ++ [jsonDumps r] ∧
    (fileExportLines file r).getLast? = some (jsonDumps r) ∧
    jsonLoads (jsonDumps r) = some r ∧
    ('\n' : Char) ∉ (jsonDumps r).data := by
  refine ⟨rfl, ?_, jsonLoads_dumps r, jsonDumps_no_newline r⟩
  unfold fileExportLines
  exact List.getLast?_concat file

/-- C8 witness: a concrete two-field record survives the dump/load round
trip. -/
theorem file_round_trip_witness :
    (rkeys [("a", Value.vint 1), ("b", Value.vstr "x")]).Nodup ∧
    jsonLoads (jsonDumps [("a", Value.vint 1), ("b", Value.vstr "x")]) =
      some [("a", Value.vint 1), ("b", Value.vstr "x")] :=
  ⟨by decide, (file_round_trip [] [("a", Value.vint 1), ("b", Value.vstr "x")]
    (by decide)).2.2.1⟩
